import Mathlib

/-!
Shallow embedding of the indicator/signal core of `app5.py`:
the Indicator Engine (`sma`, `rsi`, `atr`, `analyze`) and the Signal
Generator (`suggest_trades`).  Prices are modelled as rationals; a pandas
NaN cell is modelled as `none : Option ℚ`.
-/

set_option autoImplicit false

/-- One OHLCV bar.  `analyze`/`suggest_trades` only read `high`, `low`,
`close`; the timestamp `ts` and `op` (open) are carried for the data model. -/
structure Bar where
  ts : ℤ
  op : ℚ
  high : ℚ
  low : ℚ
  close : ℚ
deriving DecidableEq, Repr

/-- Python's `max` of two numbers, in a kernel-reducible form. -/
def qmax (a b : ℚ) : ℚ := if a ≤ b then b else a

/-- Python's `min` of two numbers, in a kernel-reducible form. -/
def qmin (a b : ℚ) : ℚ := if a ≤ b then a else b

/-- `abs`, in a kernel-reducible form. -/
def qabs (a : ℚ) : ℚ := if a < 0 then -a else a

theorem qmax_eq_max (a b : ℚ) : qmax a b = max a b := by
  simp [qmax, max_def]

theorem qmin_eq_min (a b : ℚ) : qmin a b = min a b := by
  simp [qmin, min_def]

theorem qabs_eq_abs (a : ℚ) : qabs a = |a| := by
  rcases lt_trichotomy a 0 with h | h | h
  · simp [qabs, h, abs_of_neg h]
  · simp [qabs, h]
  · simp [qabs, not_lt.mpr h.le, abs_of_pos h]

/-- The trailing window of width `w` ending at index `i` (inclusive),
i.e. elements at indices `i+1-w … i`. -/
def windowAt (xs : List ℚ) (w i : ℕ) : List ℚ :=
  (xs.take (i + 1)).drop (i + 1 - w)

/-- Arithmetic mean of a list (0 for the empty list, which never occurs
in a rolling window of width ≥ 1). -/
def mean (l : List ℚ) : ℚ := l.sum / l.length

/-- Maximum of a list (`foldl max` over a nonempty list; 0 for []). -/
def listMax : List ℚ → ℚ
  | [] => 0
  | x :: t => t.foldl qmax x

/-- Minimum of a list (`foldl min` over a nonempty list; 0 for []). -/
def listMin : List ℚ → ℚ
  | [] => 0
  | x :: t => t.foldl qmin x

/-- `series.rolling(window=w).mean()`: NaN (`none`) for the first `w-1`
positions, trailing-window mean afterwards. -/
def sma (xs : List ℚ) (w : ℕ) : List (Option ℚ) :=
  (List.range xs.length).map (fun i =>
    if w ≤ i + 1 then some (mean (windowAt xs w i)) else none)

/-- `series.rolling(window=w).max()`. -/
def rollingMax (xs : List ℚ) (w : ℕ) : List (Option ℚ) :=
  (List.range xs.length).map (fun i =>
    if w ≤ i + 1 then some (listMax (windowAt xs w i)) else none)

/-- `series.rolling(window=w).min()`. -/
def rollingMin (xs : List ℚ) (w : ℕ) : List (Option ℚ) :=
  (List.range xs.length).map (fun i =>
    if w ≤ i + 1 then some (listMin (windowAt xs w i)) else none)

/-- Tail of `series.diff()`: per-bar change, previous value threaded. -/
def diffGo (p : ℚ) : List ℚ → List (Option ℚ)
  | [] => []
  | x :: t => some (x - p) :: diffGo x t

/-- `series.diff()`: NaN at position 0, `x_i - x_(i-1)` afterwards. -/
def diff : List ℚ → List (Option ℚ)
  | [] => []
  | x :: t => none :: diffGo x t

/-- `ewm(alpha=α, adjust=False).mean()` after the seed: recurrence
`y = y_prev + α·(x - y_prev)`; a NaN input repeats the previous output. -/
def ewmGo (α p : ℚ) : List (Option ℚ) → List (Option ℚ)
  | [] => []
  | none :: t => some p :: ewmGo α p t
  | some x :: t =>
    let y := p + α * (x - p)
    some y :: ewmGo α y t

/-- `series.ewm(alpha=α, adjust=False).mean()`: leading NaNs stay NaN, the
first numeric value seeds the recurrence. -/
def ewm (α : ℚ) : List (Option ℚ) → List (Option ℚ)
  | [] => []
  | none :: t => none :: ewm α t
  | some x :: t => some x :: ewmGo α x t

/-- `delta.clip(lower=0)` applied to the diff column. -/
def gainCol (xs : List ℚ) : List (Option ℚ) :=
  (diff xs).map (Option.map (fun d => qmax d 0))

/-- `-1 * delta.clip(upper=0)` applied to the diff column. -/
def lossCol (xs : List ℚ) : List (Option ℚ) :=
  (diff xs).map (Option.map (fun d => qmax (-d) 0))

/-- `gain.ewm(alpha=1/window, adjust=False).mean()`. -/
def avgGain (xs : List ℚ) (w : ℕ) : List (Option ℚ) :=
  ewm (1 / w) (gainCol xs)

/-- `loss.ewm(alpha=1/window, adjust=False).mean()`. -/
def avgLoss (xs : List ℚ) (w : ℕ) : List (Option ℚ) :=
  ewm (1 / w) (lossCol xs)

/-- `avg_loss.replace(0, np.nan)`. -/
def avgLossR (xs : List ℚ) (w : ℕ) : List (Option ℚ) :=
  (avgLoss xs w).map (fun o => o.bind (fun v => if v = 0 then none else some v))

/-- `rs = avg_gain / avg_loss.replace(0, np.nan)`: elementwise division,
NaN whenever either operand is NaN. -/
def rsCol (xs : List ℚ) (w : ℕ) : List (Option ℚ) :=
  List.zipWith (fun g l =>
    match g, l with
    | some g, some l => some (g / l)
    | _, _ => none) (avgGain xs w) (avgLossR xs w)

/-- `rsi = 100 - (100 / (1 + rs))` before `fillna`. -/
def rsiRaw (xs : List ℚ) (w : ℕ) : List (Option ℚ) :=
  (rsCol xs w).map (Option.map (fun r => 100 - 100 / (1 + r)))

/-- `rsi(series, window)`: the raw column with `fillna(50)`. -/
def rsi (xs : List ℚ) (w : ℕ) : List ℚ :=
  (rsiRaw xs w).map (fun o => o.getD 50)

/-- True range for every bar after the first, previous bar threaded:
`max(high-low, |high-prev_close|, |low-prev_close|)`. -/
def trGo (prev : Bar) : List Bar → List ℚ
  | [] => []
  | b :: t =>
    qmax (b.high - b.low) (qmax (qabs (b.high - prev.close)) (qabs (b.low - prev.close))) :: trGo b t

/-- The true-range column: the shifted terms are NaN at the first bar, so
the rowwise `max` there degrades to `high - low`. -/
def trCol : List Bar → List ℚ
  | [] => []
  | b :: t => (b.high - b.low) :: trGo b t

/-- `atr(df, window)`: `tr.ewm(alpha=1/window, adjust=False).mean()`; the
true-range column has no NaN, so the ewm seeds at the first bar. -/
def atr (df : List Bar) (w : ℕ) : List (Option ℚ) :=
  ewm (1 / w) ((trCol df).map some)

/-- The enriched frame produced by `analyze`: the original bars plus the
derived columns, aligned by position. -/
structure Analyzed where
  bars : List Bar
  SMA20 : List (Option ℚ)
  SMA50 : List (Option ℚ)
  RSI14 : List ℚ
  ATR14 : List (Option ℚ)
deriving DecidableEq, Repr

/-- `analyze(df)`: adds SMA20, SMA50, RSI14, ATR14 columns. -/
def analyze (df : List Bar) : Analyzed :=
  let closes := df.map Bar.close
  { bars := df
    SMA20 := sma closes 20
    SMA50 := sma closes 50
    RSI14 := rsi closes 14
    ATR14 := atr df 14 }

/-- Python's `round` to an integer: round half to even. -/
def rndHalfEven (q : ℚ) : ℤ :=
  let f := ⌊q⌋
  if q - f < 1 / 2 then f
  else if (1 : ℚ) / 2 < q - f then f + 1
  else if f % 2 = 0 then f else f + 1

/-- `round(q, 2)`: round half to even at two decimal places. -/
def round2 (q : ℚ) : ℚ := (rndHalfEven (100 * q) : ℚ) / 100

/-- The `'Aggressive'` entry of the suggestions dict. -/
inductive AggAction where
  | breakoutBuy (entry stop_loss : ℚ) (targets : List ℚ)
  | noBreakout
deriving DecidableEq, Repr

/-- The `'Conservative'` entry of the suggestions dict. -/
inductive ConsAction where
  | pullbackBuy (entry stop_loss : ℚ) (targets : List ℚ)
  | waitPullback
  | noConservativeSetup
deriving DecidableEq, Repr

/-- The suggestions dict: the `'Momentum'` entry always reports the
rounded RSI14 value. -/
structure Suggestions where
  aggressive : AggAction
  conservative : ConsAction
  momentumRSI : ℚ
deriving DecidableEq, Repr

/-- `trend_up = (sma20 > sma50) if (not isna(sma20) and not isna(sma50))
else False`. -/
def trendUp (sma20 sma50 : Option ℚ) : Bool :=
  match sma20, sma50 with
  | some f, some s => decide (s < f)
  | _, _ => false

/-- `recent_high = df['High'].rolling(window=20).max().iloc[-1]`. -/
def recentHigh (df : List Bar) : Option ℚ :=
  ((rollingMax (df.map Bar.high) 20).getLast?).join

/-- `df['Low'].rolling(20).min().iloc[-1]`. -/
def recentLow (df : List Bar) : Option ℚ :=
  ((rollingMin (df.map Bar.low) 20).getLast?).join

/-- The `'Aggressive'` rule: breakout above the recent 20-day high.  The
python `max(x, rolling_min)` returns `x` when the rolling min is NaN. -/
def aggressiveRule (close atr14 : ℚ) (recent_high recent_low : Option ℚ) :
    AggAction :=
  match recent_high with
  | some h =>
    if h < close then
      AggAction.breakoutBuy close
        (match recent_low with
         | some m => qmax (close - 2 * atr14) m
         | none => close - 2 * atr14)
        [close + 1 * atr14, close + 2 * atr14]
    else AggAction.noBreakout
  | none => AggAction.noBreakout

/-- The `'Conservative'` rule: pullback to SMA50 if trend up; both
comparisons against NaN are False, landing in the final `else`. -/
def conservativeRule (close atr14 : ℚ) (trend_up : Bool) (sma50 : Option ℚ) :
    ConsAction :=
  match sma50 with
  | some s =>
    if trend_up = true ∧ close < s then
      ConsAction.pullbackBuy (round2 s) (round2 (s - 2 * atr14))
        [round2 (s + 1 * atr14), round2 (s + 2 * atr14)]
    else if trend_up = true ∧ s ≤ close then ConsAction.waitPullback
    else ConsAction.noConservativeSetup
  | none => ConsAction.noConservativeSetup

/-- The last cell of the ATR14 column as a plain number (it is always
numeric for a nonempty frame). -/
def lastATR (a : Analyzed) : ℚ := ((a.ATR14.getLast?).join).getD 0

/-- `suggest_trades(df)` over an analyzed frame; `none` models the
out-of-domain empty frame (`df.iloc[-1]` would raise). -/
def suggest_trades (a : Analyzed) : Option Suggestions :=
  match a.bars.getLast? with
  | none => none
  | some last =>
    some { aggressive := aggressiveRule last.close (lastATR a)
             (recentHigh a.bars) (recentLow a.bars)
           conservative := conservativeRule last.close (lastATR a)
             (trendUp (a.SMA20.getLast?).join (a.SMA50.getLast?).join)
             (a.SMA50.getLast?).join
           momentumRSI := round2 (a.RSI14.getLastD 0) }

/-- A bar with `open = close` (the open price is never read). -/
def mkBar (t : ℤ) (h l c : ℚ) : Bar := ⟨t, c, h, l, c⟩

def df20 : List Bar :=
  (List.range 19).map (fun i => mkBar i 10 9 10) ++ [mkBar 19 10 9 12]

theorem range19_eq : List.range 19 = [0,1,2,3,4,5,6,7,8,9,10,11,12,13,14,15,16,17,18] := rfl

theorem range20_eq : List.range 20 = [0,1,2,3,4,5,6,7,8,9,10,11,12,13,14,15,16,17,18,19] := rfl

/-- Five constant bars: shorter than every indicator window. -/
def df5 : List Bar := (List.range 5).map (fun i => mkBar i 10 10 10)

/-- Forty-nine rising bars (close `i+1`) and a fiftieth bar dropping to
`59/3`: SMA20 > SMA50 with the close below SMA50, a pullback input. -/
def df50 : List Bar :=
  (List.range 49).map (fun i => mkBar i ((i : ℚ) + 1) ((i : ℚ) + 1) ((i : ℚ) + 1)) ++
    [mkBar 49 (59/3) (59/3) (59/3)]

/-- Two bars with strictly decreasing timestamps: a malformed series. -/
def dfBadTs : List Bar := [mkBar 2 10 10 10, mkBar 1 11 11 11]

/-- Fifty constant bars at price 7: fills every window. -/
def dfConst : List Bar := List.replicate 50 (mkBar 0 7 7 7)

/-- The numeric entry carried by a Conservative action, if any. -/
def consEntry : ConsAction → Option ℚ
  | ConsAction.pullbackBuy e _ _ => some e
  | _ => none

theorem range2_eq : List.range 2 = [0,1] := rfl

theorem range5_eq : List.range 5 = [0,1,2,3,4] := rfl

theorem range49_eq : List.range 49 =
    [0,1,2,3,4,5,6,7,8,9,10,11,12,13,14,15,16,17,18,19,20,21,22,23,24,
     25,26,27,28,29,30,31,32,33,34,35,36,37,38,39,40,41,42,43,44,45,46,47,48] := rfl

theorem range50_eq : List.range 50 =
    [0,1,2,3,4,5,6,7,8,9,10,11,12,13,14,15,16,17,18,19,20,21,22,23,24,
     25,26,27,28,29,30,31,32,33,34,35,36,37,38,39,40,41,42,43,44,45,46,47,48,49] := rfl

theorem ewmGo_length (α p : ℚ) (l : List (Option ℚ)) :
    (ewmGo α p l).length = l.length := by
  induction l generalizing p with
  | nil => rfl
  | cons o t ih => cases o <;> simp [ewmGo, ih]

theorem ewm_length (α : ℚ) (l : List (Option ℚ)) : (ewm α l).length = l.length := by
  induction l with
  | nil => rfl
  | cons o t ih => cases o <;> simp [ewm, ewmGo_length, ih]

theorem diffGo_length (p : ℚ) (l : List ℚ) : (diffGo p l).length = l.length := by
  induction l generalizing p with
  | nil => rfl
  | cons x t ih => simp [diffGo, ih]

theorem diff_length (xs : List ℚ) : (diff xs).length = xs.length := by
  cases xs <;> simp [diff, diffGo_length]

theorem trGo_length (prev : Bar) (l : List Bar) : (trGo prev l).length = l.length := by
  induction l generalizing prev with
  | nil => rfl
  | cons b t ih => simp [trGo, ih]

theorem trCol_length (df : List Bar) : (trCol df).length = df.length := by
  cases df <;> simp [trCol, trGo_length]

theorem sma_length (xs : List ℚ) (w : ℕ) : (sma xs w).length = xs.length := by
  simp [sma]

theorem rollingMax_length (xs : List ℚ) (w : ℕ) :
    (rollingMax xs w).length = xs.length := by
  simp [rollingMax]

theorem rollingMin_length (xs : List ℚ) (w : ℕ) :
    (rollingMin xs w).length = xs.length := by
  simp [rollingMin]

theorem gainCol_length (xs : List ℚ) : (gainCol xs).length = xs.length := by
  simp [gainCol, diff_length]

theorem lossCol_length (xs : List ℚ) : (lossCol xs).length = xs.length := by
  simp [lossCol, diff_length]

theorem avgGain_length (xs : List ℚ) (w : ℕ) : (avgGain xs w).length = xs.length := by
  simp [avgGain, ewm_length, gainCol_length]

theorem avgLoss_length (xs : List ℚ) (w : ℕ) : (avgLoss xs w).length = xs.length := by
  simp [avgLoss, ewm_length, lossCol_length]

theorem avgLossR_length (xs : List ℚ) (w : ℕ) : (avgLossR xs w).length = xs.length := by
  simp [avgLossR, avgLoss_length]

theorem rsCol_length (xs : List ℚ) (w : ℕ) : (rsCol xs w).length = xs.length := by
  simp [rsCol, avgGain_length, avgLossR_length]

theorem rsiRaw_length (xs : List ℚ) (w : ℕ) : (rsiRaw xs w).length = xs.length := by
  simp [rsiRaw, rsCol_length]

theorem rsi_length (xs : List ℚ) (w : ℕ) : (rsi xs w).length = xs.length := by
  simp [rsi, rsiRaw_length]

theorem atr_length (df : List Bar) (w : ℕ) : (atr df w).length = df.length := by
  simp [atr, ewm_length, trCol_length]

theorem sma_getElem (xs : List ℚ) (w i : ℕ) (hi : i < xs.length) :
    (sma xs w)[i]? =
      some (if w ≤ i + 1 then some (mean (windowAt xs w i)) else none) := by
  simp [sma, List.getElem?_range, hi]

theorem rollingMax_getElem (xs : List ℚ) (w i : ℕ) (hi : i < xs.length) :
    (rollingMax xs w)[i]? =
      some (if w ≤ i + 1 then some (listMax (windowAt xs w i)) else none) := by
  simp [rollingMax, List.getElem?_range, hi]

theorem rollingMin_getElem (xs : List ℚ) (w i : ℕ) (hi : i < xs.length) :
    (rollingMin xs w)[i]? =
      some (if w ≤ i + 1 then some (listMin (windowAt xs w i)) else none) := by
  simp [rollingMin, List.getElem?_range, hi]

theorem windowAt_length (xs : List ℚ) (w i : ℕ) (h1 : w ≤ i + 1)
    (h2 : i < xs.length) : (windowAt xs w i).length = w := by
  simp only [windowAt, List.length_drop, List.length_take]
  omega

theorem mem_of_mem_windowAt (xs : List ℚ) (w i : ℕ) (x : ℚ)
    (h : x ∈ windowAt xs w i) : x ∈ xs :=
  List.mem_of_mem_take (List.mem_of_mem_drop h)

theorem windowAt_getElem (xs : List ℚ) (w i j : ℕ) (hj : j < w) (hw : w ≤ i + 1)
    (hi : i < xs.length) : (windowAt xs w i)[j]? = xs[i + 1 - w + j]? := by
  have h1 : i + 1 - w + j < i + 1 := by omega
  simp [windowAt, List.getElem?_drop, List.getElem?_take, h1]

theorem le_qmax_left (a b : ℚ) : a ≤ qmax a b := by
  rw [qmax_eq_max]; exact le_max_left a b

theorem le_qmax_right (a b : ℚ) : b ≤ qmax a b := by
  rw [qmax_eq_max]; exact le_max_right a b

theorem le_foldl_qmax (l : List ℚ) (init : ℚ) : init ≤ l.foldl qmax init := by
  induction l generalizing init with
  | nil => simp
  | cons b t ih =>
    rw [List.foldl_cons]
    exact le_trans (le_qmax_left init b) (ih (qmax init b))

theorem mem_le_foldl_qmax (l : List ℚ) (init x : ℚ) (hx : x ∈ l) :
    x ≤ l.foldl qmax init := by
  induction l generalizing init with
  | nil => cases hx
  | cons b t ih =>
    rw [List.foldl_cons]
    rcases List.mem_cons.mp hx with rfl | h
    · exact le_trans (le_qmax_right init x) (le_foldl_qmax t (qmax init x))
    · exact ih (qmax init b) h

theorem le_listMax (l : List ℚ) (x : ℚ) (hx : x ∈ l) : x ≤ listMax l := by
  cases l with
  | nil => cases hx
  | cons a t =>
    rcases List.mem_cons.mp hx with rfl | h
    · exact le_foldl_qmax t x
    · exact mem_le_foldl_qmax t a x h

theorem getLast?_eq_of_all {α : Type} (l : List α) (c : α) (h0 : l ≠ [])
    (h : ∀ x ∈ l, x = c) : l.getLast? = some c := by
  rcases Option.isSome_iff_exists.mp (List.getLast?_isSome.mpr h0) with ⟨y, hy⟩
  rw [hy, h y (List.mem_of_mem_getLast? hy)]

theorem ewmGo_nonneg (α : ℚ) (l : List (Option ℚ)) (hα0 : 0 ≤ α) (hα1 : α ≤ 1) :
    ∀ (p : ℚ), 0 ≤ p → (∀ x : ℚ, some x ∈ l → 0 ≤ x) →
      ∀ y : ℚ, some y ∈ ewmGo α p l → 0 ≤ y := by
  induction l with
  | nil => intro p _ _ y hy; simp [ewmGo] at hy
  | cons o t ih =>
    intro p hp hl y hy
    cases o with
    | none =>
      simp only [ewmGo, List.mem_cons] at hy
      rcases hy with h | h
      · rw [Option.some.injEq] at h; rw [h]; exact hp
      · exact ih p hp (fun x hx => hl x (List.mem_cons_of_mem _ hx)) y h
    | some x =>
      have hx : 0 ≤ x := hl x (List.mem_cons_self _ _)
      have hy2 : 0 ≤ p + α * (x - p) := by nlinarith
      simp only [ewmGo, List.mem_cons] at hy
      rcases hy with h | h
      · rw [Option.some.injEq] at h; rw [h]; exact hy2
      · exact ih (p + α * (x - p)) hy2
          (fun z hz => hl z (List.mem_cons_of_mem _ hz)) y h

theorem ewm_nonneg (α : ℚ) (l : List (Option ℚ)) (hα0 : 0 ≤ α) (hα1 : α ≤ 1)
    (hl : ∀ x : ℚ, some x ∈ l → 0 ≤ x) : ∀ y : ℚ, some y ∈ ewm α l → 0 ≤ y := by
  induction l with
  | nil => intro y hy; simp [ewm] at hy
  | cons o t ih =>
    intro y hy
    cases o with
    | none =>
      simp only [ewm, List.mem_cons] at hy
      rcases hy with h | h
      · cases h
      · exact ih (fun x hx => hl x (List.mem_cons_of_mem _ hx)) y h
    | some x =>
      have hx : 0 ≤ x := hl x (List.mem_cons_self _ _)
      simp only [ewm, List.mem_cons] at hy
      rcases hy with h | h
      · rw [Option.some.injEq] at h; rw [h]; exact hx
      · exact ewmGo_nonneg α t hα0 hα1 x hx
          (fun z hz => hl z (List.mem_cons_of_mem _ hz)) y h

theorem ewmGo_isSome (α : ℚ) (l : List (Option ℚ)) :
    ∀ (p : ℚ), ∀ o ∈ ewmGo α p l, o.isSome := by
  induction l with
  | nil => intro p o ho; simp [ewmGo] at ho
  | cons x t ih =>
    intro p o ho
    cases x <;> simp only [ewmGo, List.mem_cons] at ho <;>
      rcases ho with h | h <;> first | (rw [h]; rfl) | exact ih _ o h

theorem ewm_isSome (α : ℚ) (l : List (Option ℚ)) (hl : ∀ o ∈ l, o.isSome) :
    ∀ o ∈ ewm α l, o.isSome := by
  induction l with
  | nil => intro o ho; simp [ewm] at ho
  | cons x t ih =>
    intro o ho
    cases x with
    | none => exact absurd (hl none (List.mem_cons_self _ _)) (by simp)
    | some v =>
      simp only [ewm, List.mem_cons] at ho
      rcases ho with h | h
      · rw [h]; rfl
      · exact ewmGo_isSome α t v o h

theorem zipWith_getElem {α β γ : Type} (f : α → β → γ) (as : List α)
    (bs : List β) (i : ℕ) (a : α) (b : β) (ha : as[i]? = some a)
    (hb : bs[i]? = some b) : (List.zipWith f as bs)[i]? = some (f a b) := by
  induction as generalizing bs i with
  | nil => simp at ha
  | cons a0 at' ih =>
    cases bs with
    | nil => simp at hb
    | cons b0 bt =>
      cases i with
      | zero =>
        simp only [List.getElem?_cons_zero, Option.some.injEq] at ha hb
        subst ha; subst hb
        simp [List.zipWith_cons_cons]
      | succ n =>
        simp only [List.getElem?_cons_succ] at ha hb
        simpa [List.zipWith_cons_cons] using ih bt n ha hb

theorem zipWith_mem {α β γ : Type} (f : α → β → γ) (as : List α) (bs : List β)
    (c : γ) (h : c ∈ List.zipWith f as bs) :
    ∃ a b, a ∈ as ∧ b ∈ bs ∧ c = f a b := by
  induction as generalizing bs with
  | nil => simp at h
  | cons a0 at' ih =>
    cases bs with
    | nil => simp at h
    | cons b0 bt =>
      simp only [List.zipWith, List.mem_cons] at h
      rcases h with h | h
      · exact ⟨a0, b0, List.mem_cons_self _ _, List.mem_cons_self _ _, h⟩
      · rcases ih bt h with ⟨a, b, ha, hb, hc⟩
        exact ⟨a, b, List.mem_cons_of_mem _ ha, List.mem_cons_of_mem _ hb, hc⟩

theorem mean_of_const (l : List ℚ) (C : ℚ) (h0 : l ≠ [])
    (h : ∀ x ∈ l, x = C) : mean l = C := by
  have hrep : l = List.replicate l.length C := by
    rw [List.eq_replicate_iff]; exact ⟨rfl, h⟩
  have hn : (l.length : ℚ) ≠ 0 := by
    exact_mod_cast Nat.pos_iff_ne_zero.mp (List.length_pos.mpr h0)
  calc mean l = ((l.length : ℚ) * C) / l.length := by
        rw [mean]
        conv_lhs => rw [hrep]
        simp [List.sum_replicate, nsmul_eq_mul]
    _ = C := by field_simp

theorem analyze_bars (df : List Bar) : (analyze df).bars = df := rfl

theorem analyze_SMA20 (df : List Bar) :
    (analyze df).SMA20 = sma (df.map Bar.close) 20 := rfl

theorem analyze_SMA50 (df : List Bar) :
    (analyze df).SMA50 = sma (df.map Bar.close) 50 := rfl

theorem analyze_RSI14 (df : List Bar) :
    (analyze df).RSI14 = rsi (df.map Bar.close) 14 := rfl

theorem analyze_ATR14 (df : List Bar) : (analyze df).ATR14 = atr df 14 := rfl

theorem suggest_trades_eq (a : Analyzed) (last : Bar)
    (h : a.bars.getLast? = some last) :
    suggest_trades a = some
      { aggressive := aggressiveRule last.close (lastATR a)
          (recentHigh a.bars) (recentLow a.bars)
        conservative := conservativeRule last.close (lastATR a)
          (trendUp (a.SMA20.getLast?).join (a.SMA50.getLast?).join)
          (a.SMA50.getLast?).join
        momentumRSI := round2 (a.RSI14.getLastD 0) } := by
  simp [suggest_trades, h]

theorem recentHigh_eq (df : List Bar) (h0 : df ≠ []) :
    recentHigh df = if 20 ≤ df.length
      then some (listMax (windowAt (df.map Bar.high) 20 (df.length - 1)))
      else none := by
  have hn : 0 < df.length := List.length_pos.mpr h0
  have hlen : (rollingMax (df.map Bar.high) 20).length = df.length := by
    rw [rollingMax_length, List.length_map]
  have hi : df.length - 1 < (df.map Bar.high).length := by
    rw [List.length_map]; omega
  rw [recentHigh, List.getLast?_eq_getElem?, hlen,
    rollingMax_getElem _ _ _ hi]
  have he : df.length - 1 + 1 = df.length := by omega
  rw [he]
  by_cases h20 : 20 ≤ df.length
  · simp [h20, List.length_map]
  · simp [h20, List.length_map]

theorem recentLow_eq (df : List Bar) (h0 : df ≠ []) :
    recentLow df = if 20 ≤ df.length
      then some (listMin (windowAt (df.map Bar.low) 20 (df.length - 1)))
      else none := by
  have hn : 0 < df.length := List.length_pos.mpr h0
  have hlen : (rollingMin (df.map Bar.low) 20).length = df.length := by
    rw [rollingMin_length, List.length_map]
  have hi : df.length - 1 < (df.map Bar.low).length := by
    rw [List.length_map]; omega
  rw [recentLow, List.getLast?_eq_getElem?, hlen,
    rollingMin_getElem _ _ _ hi]
  have he : df.length - 1 + 1 = df.length := by omega
  rw [he]
  by_cases h20 : 20 ≤ df.length
  · simp [h20, List.length_map]
  · simp [h20, List.length_map]

theorem sma_getLast (xs : List ℚ) (w : ℕ) (h0 : xs ≠ []) :
    (sma xs w).getLast? = some (if w ≤ xs.length
      then some (mean (windowAt xs w (xs.length - 1))) else none) := by
  have hn : 0 < xs.length := List.length_pos.mpr h0
  have hi : xs.length - 1 < xs.length := by omega
  rw [List.getLast?_eq_getElem?, sma_length, sma_getElem _ _ _ hi]
  have he : xs.length - 1 + 1 = xs.length := by omega
  rw [he]

/-- C8: for every series and window `W ≥ 1`, the SMA column is undefined at
exactly the first `W-1` positions, and at every later in-range position it
equals the arithmetic mean of the closes at indices `i-W+1 … i`, the
trailing `W` closes including the current bar. -/
theorem sma_window_spec (xs : List ℚ) (W : ℕ) (hW : 1 ≤ W) (i : ℕ)
    (hi : i < xs.length) :
    (sma xs W)[i]? =
      some (if i + 1 < W then none
        else some ((((List.range W).map
          (fun j => xs.getD (i + 1 - W + j) 0)).sum) / W)) := by
  rw [sma_getElem _ _ _ hi]
  by_cases hc : W ≤ i + 1
  · have hwin : windowAt xs W i =
        (List.range W).map (fun j => xs.getD (i + 1 - W + j) 0) := by
      apply List.ext_getElem?
      intro j
      by_cases hj : j < W
      · have hidx : i + 1 - W + j < xs.length := by omega
        rw [windowAt_getElem _ _ _ _ hj hc hi]
        rw [List.getElem?_map]
        simp [List.getElem?_range, hj, List.getElem?_eq_getElem hidx,
          List.getD_eq_getElem _ _ hidx]
      · have h1 : (windowAt xs W i).length ≤ j := by
          rw [windowAt_length _ _ _ hc hi]; omega
        have h2 : ((List.range W).map
            (fun j => xs.getD (i + 1 - W + j) 0)).length ≤ j := by
          simp; omega
        rw [List.getElem?_eq_none h1, List.getElem?_eq_none h2]
    have hlen : ((windowAt xs W i).length : ℚ) = (W : ℚ) := by
      rw [windowAt_length _ _ _ hc hi]
    rw [if_pos hc, if_neg (by omega), mean, hlen, hwin]
  · rw [if_neg hc, if_pos (by omega)]

/-- Witness for C8 at the spec's own example: closes 10…20, window 5; the
trailing mean at the last bar is 18. -/
theorem sma_window_spec_witness :
    (sma [10, 11, 12, 13, 14, 15, 16, 17, 18, 19, 20] 5)[10]? =
      some (if 10 + 1 < 5 then none
        else some ((((List.range 5).map
          (fun j => [(10:ℚ), 11, 12, 13, 14, 15, 16, 17, 18, 19, 20].getD
            (10 + 1 - 5 + j) 0)).sum) / 5)) ∧
    (((List.range 5).map
      (fun j => [(10:ℚ), 11, 12, 13, 14, 15, 16, 17, 18, 19, 20].getD
        (10 + 1 - 5 + j) 0)).sum) / 5 = 18 :=
  ⟨sma_window_spec [10, 11, 12, 13, 14, 15, 16, 17, 18, 19, 20] 5
      (by norm_num) 10 (by norm_num),
    by norm_num [range5_eq, List.getD]⟩

/-- C4: whenever the smoothed average loss at a position is exactly zero,
the RSI value produced at that position is the neutral default 50. -/
theorem rsi_eq_50_of_avgLoss_zero (xs : List ℚ) (w i : ℕ)
    (h : (avgLoss xs w)[i]? = some (some 0)) : (rsi xs w)[i]? = some 50 := by
  have hiL : i < xs.length := by
    by_contra hc
    rw [List.getElem?_eq_none (by rw [avgLoss_length]; omega)] at h
    cases h
  have hR : (avgLossR xs w)[i]? = some none := by
    rw [avgLossR, List.getElem?_map, h]
    rfl
  obtain ⟨g, hg⟩ : ∃ g, (avgGain xs w)[i]? = some g :=
    ⟨_, List.getElem?_eq_getElem (by rw [avgGain_length]; exact hiL)⟩
  have hrs : (rsCol xs w)[i]? = some none := by
    rw [rsCol, zipWith_getElem _ _ _ i g none hg hR]
    cases g <;> rfl
  rw [rsi, List.getElem?_map, rsiRaw, List.getElem?_map, hrs]
  rfl

/-- Witness for C4: on closes `[5, 6]` the average loss at position 1 is
exactly 0 and the RSI there is 50. -/
theorem rsi_eq_50_of_avgLoss_zero_witness :
    (avgLoss [(5:ℚ), 6] 14)[1]? = some (some 0) ∧
      (rsi [(5:ℚ), 6] 14)[1]? = some 50 :=
  ⟨by norm_num [avgLoss, lossCol, diff, diffGo, ewm, ewmGo, qmax],
   rsi_eq_50_of_avgLoss_zero [(5:ℚ), 6] 14 1
     (by norm_num [avgLoss, lossCol, diff, diffGo, ewm, ewmGo, qmax])⟩

/-- C6: every RSI value the engine emits lies within [0, 100]. -/
theorem rsi_bounds (xs : List ℚ) (w : ℕ) (hw : 1 ≤ w) (x : ℚ)
    (hx : x ∈ rsi xs w) : 0 ≤ x ∧ x ≤ 100 := by
  have hα0 : (0:ℚ) ≤ 1 / (w:ℚ) := by positivity
  have hw1 : (1:ℚ) ≤ (w:ℚ) := by exact_mod_cast hw
  have hα1 : (1:ℚ) / (w:ℚ) ≤ 1 := by
    rw [div_le_one (by linarith)]; exact hw1
  have hgain : ∀ z : ℚ, some z ∈ gainCol xs → 0 ≤ z := by
    intro z hz
    rw [gainCol] at hz
    rcases List.mem_map.mp hz with ⟨o, _, heq⟩
    rcases Option.map_eq_some'.mp heq with ⟨d, _, hd⟩
    rw [← hd]
    exact le_qmax_right d 0
  have hloss : ∀ z : ℚ, some z ∈ lossCol xs → 0 ≤ z := by
    intro z hz
    rw [lossCol] at hz
    rcases List.mem_map.mp hz with ⟨o, _, heq⟩
    rcases Option.map_eq_some'.mp heq with ⟨d, _, hd⟩
    rw [← hd]
    exact le_qmax_right (-d) 0
  rw [rsi] at hx
  rcases List.mem_map.mp hx with ⟨o, ho, rfl⟩
  cases o with
  | none => norm_num
  | some v =>
    rw [rsiRaw] at ho
    rcases List.mem_map.mp ho with ⟨r, hr, hmap⟩
    rcases Option.map_eq_some'.mp hmap with ⟨rv, rfl, hfv⟩
    rcases zipWith_mem _ _ _ _ hr with ⟨g, l, hgmem, hlmem, heq⟩
    cases g with
    | none => cases l <;> simp at heq
    | some gv =>
      cases l with
      | none => simp at heq
      | some lv =>
        have hrv : rv = gv / lv := by simpa using heq
        have hg0 : 0 ≤ gv := ewm_nonneg _ _ hα0 hα1 hgain gv hgmem
        have hlv : lv ≠ 0 ∧ some lv ∈ avgLoss xs w := by
          rw [avgLossR] at hlmem
          rcases List.mem_map.mp hlmem with ⟨o', ho', heq'⟩
          rcases Option.bind_eq_some.mp heq' with ⟨a, ha, hfa⟩
          by_cases h0 : a = 0
          · rw [h0] at hfa; simp at hfa
          · rw [if_neg h0] at hfa
            rcases Option.some.inj hfa with rfl
            exact ⟨h0, ha ▸ ho'⟩
        have hl0 : 0 < lv :=
          lt_of_le_of_ne (ewm_nonneg _ _ hα0 hα1 hloss lv hlv.2) (Ne.symm hlv.1)
        have hrv0 : 0 ≤ rv := hrv ▸ div_nonneg hg0 hl0.le
        have h1 : (0:ℚ) < 1 + rv := by linarith
        constructor
        · have h2 : 100 / (1 + rv) ≤ 100 := by
            rw [div_le_iff₀ h1]; nlinarith
          rw [← hfv]; simp only [Option.getD_some]; linarith
        · have h3 : 0 < 100 / (1 + rv) := by positivity
          rw [← hfv]; simp only [Option.getD_some]; linarith

/-- Witness for C6: RSI of `[5, 6]` with window 14 contains the value 50,
which the theorem bounds within [0, 100]. -/
theorem rsi_bounds_witness :
    (50:ℚ) ∈ rsi [5, 6] 14 ∧ 0 ≤ (50:ℚ) ∧ (50:ℚ) ≤ 100 :=
  ⟨by norm_num [rsi, rsiRaw, rsCol, avgGain, avgLoss, avgLossR, gainCol,
      lossCol, diff, diffGo, ewm, ewmGo, qmax],
   rsi_bounds [5, 6] 14 (by norm_num) 50
     (by norm_num [rsi, rsiRaw, rsCol, avgGain, avgLoss, avgLossR, gainCol,
       lossCol, diff, diffGo, ewm, ewmGo, qmax])⟩

theorem getLast_high_mem_window (df : List Bar) (last : Bar)
    (hl : df.getLast? = some last) (h20 : 20 ≤ df.length) :
    last.high ∈ windowAt (df.map Bar.high) 20 (df.length - 1) := by
  have hi : df.length - 1 < (df.map Bar.high).length := by
    rw [List.length_map]; omega
  have hw : 20 ≤ df.length - 1 + 1 := by omega
  have hj : (windowAt (df.map Bar.high) 20 (df.length - 1))[19]? =
      (df.map Bar.high)[df.length - 1 + 1 - 20 + 19]? :=
    windowAt_getElem _ _ _ _ (by omega) hw hi
  have hidx : df.length - 1 + 1 - 20 + 19 = df.length - 1 := by omega
  rw [hidx] at hj
  have hlast : df[df.length - 1]? = some last := by
    rw [← List.getLast?_eq_getElem?]; exact hl
  rw [List.getElem?_map, hlast] at hj
  exact List.getElem?_mem hj

/-- C3: for every non-empty series in which every bar satisfies
close ≤ high, the breakout condition is false at the latest bar — the
20-bar rolling max of high includes the current bar — so the Aggressive
suggestion is the no-breakout marker. -/
theorem no_breakout_when_close_le_high (df : List Bar) (h0 : df ≠ [])
    (hb : ∀ b ∈ df, b.close ≤ b.high) :
    (suggest_trades (analyze df)).map Suggestions.aggressive =
      some AggAction.noBreakout := by
  obtain ⟨last, hl⟩ := Option.isSome_iff_exists.mp (List.getLast?_isSome.mpr h0)
  rw [suggest_trades_eq (analyze df) last (by rw [analyze_bars]; exact hl)]
  simp only [Option.map_some', analyze_bars]
  by_cases h20 : 20 ≤ df.length
  · rw [recentHigh_eq df h0, if_pos h20]
    have hhigh : last.high ∈ windowAt (df.map Bar.high) 20 (df.length - 1) :=
      getLast_high_mem_window df last hl h20
    have hle : last.close ≤ listMax (windowAt (df.map Bar.high) 20 (df.length - 1)) :=
      le_trans (hb last (List.mem_of_mem_getLast? hl)) (le_listMax _ _ hhigh)
    simp [aggressiveRule, not_lt.mpr hle]
  · rw [recentHigh_eq df h0, if_neg h20]
    rfl

/-- Witness for C3 at the five constant bars of `df5` (close = high). -/
theorem no_breakout_when_close_le_high_witness :
    (suggest_trades (analyze df5)).map Suggestions.aggressive =
      some AggAction.noBreakout :=
  no_breakout_when_close_le_high df5
    (by simp [df5, range5_eq, mkBar])
    (by norm_num [df5, range5_eq, mkBar])

/-- C9: the breakout plan is emitted iff the latest close strictly exceeds
the 20-bar rolling max of high (current bar included, the code's inclusion
policy); in particular, when the latest close equals that rolling high the
Aggressive suggestion is the no-breakout marker. -/
theorem breakout_iff_close_gt_recent_high (df : List Bar) (c : ℚ)
    (hc : (df.map Bar.close).getLast? = some c) :
    ((∃ e sl t, (suggest_trades (analyze df)).map Suggestions.aggressive =
        some (AggAction.breakoutBuy e sl t)) ↔
      (∃ h, recentHigh df = some h ∧ h < c)) ∧
    (recentHigh df = some c →
      (suggest_trades (analyze df)).map Suggestions.aggressive =
        some AggAction.noBreakout) := by
  rw [List.getLast?_map] at hc
  rcases Option.map_eq_some'.mp hc with ⟨last, hl, hcl⟩
  rw [suggest_trades_eq (analyze df) last (by rw [analyze_bars]; exact hl)]
  simp only [Option.map_some', analyze_bars]
  subst hcl
  constructor
  · constructor
    · rintro ⟨e, sl, t, ht⟩
      cases hrh : recentHigh df with
      | none =>
        rw [hrh] at ht
        simp [aggressiveRule] at ht
      | some H =>
        rw [hrh] at ht
        by_cases hlt : H < last.close
        · exact ⟨H, rfl, hlt⟩
        · simp [aggressiveRule, hlt] at ht
    · rintro ⟨H, hrh, hlt⟩
      rw [hrh]
      simp only [aggressiveRule, if_pos hlt]
      exact ⟨_, _, _, rfl⟩
  · intro hrh
    rw [hrh]
    simp [aggressiveRule]

/-- Witness for C9 at `df20`, whose latest close 12 exceeds the rolling
20-bar high 10. -/
theorem breakout_iff_close_gt_recent_high_witness :
    ((∃ e sl t, (suggest_trades (analyze df20)).map Suggestions.aggressive =
        some (AggAction.breakoutBuy e sl t)) ↔
      (∃ h, recentHigh df20 = some h ∧ h < 12)) ∧
    (recentHigh df20 = some 12 →
      (suggest_trades (analyze df20)).map Suggestions.aggressive =
        some AggAction.noBreakout) :=
  breakout_iff_close_gt_recent_high df20 12
    (by norm_num [df20, mkBar, range19_eq, List.getLast?])

/-- C1 (evaluation at the failing input): on `df20` the breakout fires with
close 12 and ATR 1; the emitted stop_loss is `close − 2·ATR = 10`, while
the 20-bar rolling min of low is 9 — strictly lower — so the code keeps
the higher (max) candidate, not the claimed lower one. -/
theorem breakout_stop_takes_max_df20 :
    suggest_trades (analyze df20) =
      some ⟨AggAction.breakoutBuy 12 10 [13, 14],
        ConsAction.noConservativeSetup, 50⟩ ∧
    recentLow df20 = some 9 ∧ lastATR (analyze df20) = 1 ∧
    ((9:ℚ) < 12 - 2 * 1) := by
  refine ⟨?_, ?_, ?_, by norm_num⟩ <;>
    norm_num [df20, mkBar, range19_eq, suggest_trades, analyze, sma, rsi,
      rsiRaw, rsCol, avgGain, avgLoss, avgLossR, gainCol, lossCol, diff,
      diffGo, ewm, ewmGo, atr, trCol, trGo, rollingMax, rollingMin, listMax,
      listMin, mean, windowAt, range20_eq, qmax, qmin, qabs, round2,
      rndHalfEven, aggressiveRule, conservativeRule, trendUp, recentHigh,
      recentLow, lastATR, List.getLast?, List.sum, List.foldl]

theorem trGo_const (C : ℚ) (l : List Bar) :
    ∀ prev : Bar, prev.close = C →
      (∀ b ∈ l, b.high = C ∧ b.low = C ∧ b.close = C) →
      ∀ x ∈ trGo prev l, x = 0 := by
  induction l with
  | nil => intro prev _ _ x hx; simp [trGo] at hx
  | cons b t ih =>
    intro prev hp hall x hx
    have hb := hall b (List.mem_cons_self _ _)
    simp only [trGo, List.mem_cons] at hx
    rcases hx with rfl | hx
    · simp [hb.1, hb.2.1, hp, qmax, qabs]
    · exact ih b hb.2.2 (fun b' hb' => hall b' (List.mem_cons_of_mem _ hb')) x hx

theorem trCol_const (df : List Bar) (C : ℚ)
    (h : ∀ b ∈ df, b.high = C ∧ b.low = C ∧ b.close = C) :
    ∀ x ∈ trCol df, x = 0 := by
  cases df with
  | nil => intro x hx; simp [trCol] at hx
  | cons b t =>
    intro x hx
    have hb := h b (List.mem_cons_self _ _)
    simp only [trCol, List.mem_cons] at hx
    rcases hx with rfl | hx
    · rw [hb.1, hb.2.1]; ring
    · exact trGo_const C t b hb.2.2
        (fun b' hb' => h b' (List.mem_cons_of_mem _ hb')) x hx

theorem ewmGo_all_zero (α : ℚ) (l : List (Option ℚ))
    (hl : ∀ o ∈ l, o = none ∨ o = some 0) :
    ∀ p : ℚ, p = 0 → ∀ o ∈ ewmGo α p l, o = some 0 := by
  induction l with
  | nil => intro p _ o ho; simp [ewmGo] at ho
  | cons c t ih =>
    intro p hp o ho
    have hrest : ∀ o ∈ t, o = none ∨ o = some 0 :=
      fun o' ho' => hl o' (List.mem_cons_of_mem _ ho')
    rcases hl c (List.mem_cons_self _ _) with rfl | rfl
    · simp only [ewmGo, List.mem_cons] at ho
      rcases ho with h | h
      · rw [h, hp]
      · exact ih hrest p hp o h
    · simp only [ewmGo, List.mem_cons] at ho
      have hy : p + α * (0 - p) = 0 := by rw [hp]; ring
      rcases ho with h | h
      · rw [h, hy]
      · exact ih hrest (p + α * (0 - p)) hy o h

theorem ewm_all_zero_opt (α : ℚ) (l : List (Option ℚ))
    (hl : ∀ o ∈ l, o = none ∨ o = some 0) :
    ∀ o ∈ ewm α l, o = none ∨ o = some 0 := by
  induction l with
  | nil => intro o ho; simp [ewm] at ho
  | cons c t ih =>
    intro o ho
    have hrest : ∀ o ∈ t, o = none ∨ o = some 0 :=
      fun o' ho' => hl o' (List.mem_cons_of_mem _ ho')
    rcases hl c (List.mem_cons_self _ _) with rfl | rfl
    · simp only [ewm, List.mem_cons] at ho
      rcases ho with h | h
      · exact Or.inl h
      · exact ih hrest o h
    · simp only [ewm, List.mem_cons] at ho
      rcases ho with h | h
      · exact Or.inr h
      · exact Or.inr (ewmGo_all_zero α t hrest 0 rfl o h)

theorem ewm_all_zero (α : ℚ) (l : List (Option ℚ))
    (hl : ∀ o ∈ l, o = some 0) : ∀ o ∈ ewm α l, o = some 0 := by
  cases l with
  | nil => intro o ho; simp [ewm] at ho
  | cons c t =>
    intro o ho
    have hrest : ∀ o ∈ t, o = none ∨ o = some 0 :=
      fun o' ho' => Or.inr (hl o' (List.mem_cons_of_mem _ ho'))
    rcases hl c (List.mem_cons_self _ _) with rfl
    simp only [ewm, List.mem_cons] at ho
    rcases ho with h | h
    · exact h
    · exact ewmGo_all_zero α t hrest 0 rfl o h

theorem diffGo_const (C : ℚ) (l : List ℚ) (hl : ∀ x ∈ l, x = C) :
    ∀ p : ℚ, p = C → ∀ o ∈ diffGo p l, o = some 0 := by
  induction l with
  | nil => intro p _ o ho; simp [diffGo] at ho
  | cons x t ih =>
    intro p hp o ho
    have hx := hl x (List.mem_cons_self _ _)
    simp only [diffGo, List.mem_cons] at ho
    rcases ho with h | h
    · rw [h, hx, hp]; simp
    · exact ih (fun x' hx' => hl x' (List.mem_cons_of_mem _ hx')) x hx o h

theorem diff_const (xs : List ℚ) (C : ℚ) (hl : ∀ x ∈ xs, x = C) :
    ∀ o ∈ diff xs, o = none ∨ o = some 0 := by
  cases xs with
  | nil => intro o ho; simp [diff] at ho
  | cons x t =>
    intro o ho
    simp only [diff, List.mem_cons] at ho
    rcases ho with h | h
    · exact Or.inl h
    · exact Or.inr (diffGo_const C t
        (fun x' hx' => hl x' (List.mem_cons_of_mem _ hx')) x
        (hl x (List.mem_cons_self _ _)) o h)

theorem rsi_const (xs : List ℚ) (C : ℚ) (hl : ∀ x ∈ xs, x = C) (w : ℕ) :
    ∀ x ∈ rsi xs w, x = 50 := by
  have hlossz : ∀ o ∈ lossCol xs, o = none ∨ o = some 0 := by
    intro o ho
    rw [lossCol] at ho
    rcases List.mem_map.mp ho with ⟨o', ho', rfl⟩
    rcases diff_const xs C hl o' ho' with rfl | rfl
    · exact Or.inl rfl
    · right; simp [qmax]
  have havgz : ∀ o ∈ avgLoss xs w, o = none ∨ o = some 0 :=
    fun o ho => ewm_all_zero_opt _ _ hlossz o ho
  have hR : ∀ o ∈ avgLossR xs w, o = none := by
    intro o ho
    rw [avgLossR] at ho
    rcases List.mem_map.mp ho with ⟨o', ho', rfl⟩
    rcases havgz o' ho' with rfl | rfl <;> simp
  have hrs : ∀ o ∈ rsCol xs w, o = none := by
    intro o ho
    rcases zipWith_mem _ _ _ _ ho with ⟨g, l, _, hlmem, rfl⟩
    rw [hR l hlmem]
    cases g <;> rfl
  intro x hx
  rw [rsi] at hx
  rcases List.mem_map.mp hx with ⟨o, ho, rfl⟩
  rw [rsiRaw] at ho
  rcases List.mem_map.mp ho with ⟨r, hr, rfl⟩
  rw [hrs r hr]
  rfl

/-- C7: for a constant-price series (high = low = close = C at every bar)
long enough to fill all windows, the latest bar has SMA20 = SMA50 = C,
ATR = 0 and RSI = 50. -/
theorem constant_series_indicators (df : List Bar) (C : ℚ)
    (hconst : ∀ b ∈ df, b.high = C ∧ b.low = C ∧ b.close = C)
    (hlen : 50 ≤ df.length) :
    (analyze df).SMA20.getLast? = some (some C) ∧
    (analyze df).SMA50.getLast? = some (some C) ∧
    (analyze df).ATR14.getLast? = some (some 0) ∧
    (analyze df).RSI14.getLast? = some 50 := by
  have hpos : 0 < df.length := by omega
  have h0 : df ≠ [] := List.length_pos.mp hpos
  have hcl : (df.map Bar.close).length = df.length := List.length_map ..
  have hc0 : df.map Bar.close ≠ [] := List.length_pos.mp (by rw [hcl]; omega)
  have hclose : ∀ x ∈ df.map Bar.close, x = C := by
    intro x hx
    rcases List.mem_map.mp hx with ⟨b, hb, rfl⟩
    exact (hconst b hb).2.2
  have hsma : ∀ w : ℕ, 0 < w → w ≤ df.length →
      (sma (df.map Bar.close) w).getLast? = some (some C) := by
    intro w hw hwle
    rw [sma_getLast _ _ hc0, if_pos (by rw [hcl]; omega)]
    have hwlen : (windowAt (df.map Bar.close) w
        ((df.map Bar.close).length - 1)).length = w :=
      windowAt_length _ _ _ (by omega) (by omega)
    have hwne : windowAt (df.map Bar.close) w
        ((df.map Bar.close).length - 1) ≠ [] :=
      List.length_pos.mp (by rw [hwlen]; omega)
    rw [mean_of_const _ C hwne
      (fun x hx => hclose x (mem_of_mem_windowAt _ _ _ _ hx))]
  refine ⟨hsma 20 (by omega) (by omega), hsma 50 (by omega) (by omega), ?_, ?_⟩
  · rw [analyze_ATR14]
    have htr : ∀ x ∈ trCol df, x = 0 := trCol_const df C hconst
    have hall : ∀ o ∈ atr df 14, o = some 0 := by
      intro o ho
      rw [atr] at ho
      refine ewm_all_zero _ _ ?_ o ho
      intro o' ho'
      rcases List.mem_map.mp ho' with ⟨x, hx, rfl⟩
      rw [htr x hx]
    exact getLast?_eq_of_all _ _
      (List.length_pos.mp (by rw [atr_length]; omega)) hall
  · rw [analyze_RSI14]
    exact getLast?_eq_of_all _ _
      (List.length_pos.mp (by rw [rsi_length, hcl]; omega))
      (rsi_const _ C hclose 14)

/-- Witness for C7 at fifty constant bars of price 7. -/
theorem constant_series_indicators_witness :
    (analyze dfConst).SMA20.getLast? = some (some 7) ∧
    (analyze dfConst).SMA50.getLast? = some (some 7) ∧
    (analyze dfConst).ATR14.getLast? = some (some 0) ∧
    (analyze dfConst).RSI14.getLast? = some 50 :=
  constant_series_indicators dfConst 7
    (by
      intro b hb
      simp only [dfConst, List.mem_replicate] at hb
      rw [hb.2]
      norm_num [mkBar])
    (by simp [dfConst])

theorem sma_all_none (xs : List ℚ) (w : ℕ) (h : xs.length < w) :
    ∀ o ∈ sma xs w, o = none := by
  intro o ho
  rw [sma] at ho
  rcases List.mem_map.mp ho with ⟨i, hi, rfl⟩
  rw [List.mem_range] at hi
  rw [if_neg (by omega)]

theorem atr_all_isSome (df : List Bar) (w : ℕ) : ∀ o ∈ atr df w, o.isSome := by
  intro o ho
  rw [atr] at ho
  refine ewm_isSome _ _ ?_ o ho
  intro o' ho'
  rcases List.mem_map.mp ho' with ⟨x, _, rfl⟩
  rfl

/-- C2 (amended): for a non-empty series shorter than 20 bars, the SMA20
and SMA50 columns are undefined at every position, while RSI14 and ATR14
are numeric at every position (full-length columns, all ATR cells
defined); the breakout and pullback rules degrade to their no-signal
markers, the momentum annotation still reports a numeric RSI, and no
failure occurs. -/
theorem short_series_degrades (df : List Bar) (h0 : df ≠ [])
    (h20 : df.length < 20) :
    (∀ o ∈ (analyze df).SMA20, o = none) ∧
    (∀ o ∈ (analyze df).SMA50, o = none) ∧
    (analyze df).RSI14.length = df.length ∧
    (analyze df).ATR14.length = df.length ∧
    (∀ o ∈ (analyze df).ATR14, o.isSome) ∧
    suggest_trades (analyze df) =
      some ⟨AggAction.noBreakout, ConsAction.noConservativeSetup,
        round2 ((analyze df).RSI14.getLastD 0)⟩ := by
  have hcl : (df.map Bar.close).length = df.length := List.length_map ..
  have hs20 : ∀ o ∈ (analyze df).SMA20, o = none := by
    rw [analyze_SMA20]; exact sma_all_none (df.map Bar.close) 20 (by omega)
  have hs50 : ∀ o ∈ (analyze df).SMA50, o = none := by
    rw [analyze_SMA50]; exact sma_all_none (df.map Bar.close) 50 (by omega)
  refine ⟨hs20, hs50, by rw [analyze_RSI14, rsi_length, hcl],
    by rw [analyze_ATR14, atr_length], by rw [analyze_ATR14]; exact atr_all_isSome df 14, ?_⟩
  obtain ⟨last, hl⟩ := Option.isSome_iff_exists.mp (List.getLast?_isSome.mpr h0)
  rw [suggest_trades_eq (analyze df) last (by rw [analyze_bars]; exact hl),
    analyze_bars]
  have hrh : recentHigh df = none := by
    rw [recentHigh_eq df h0, if_neg (by omega)]
  have h50j : ((analyze df).SMA50.getLast?).join = none := by
    have hpos : (analyze df).SMA50 ≠ [] := by
      have hdf : 0 < df.length := List.length_pos.mpr h0
      refine List.length_pos.mp ?_
      rw [analyze_SMA50, sma_length, hcl]
      omega
    have hs : (analyze df).SMA50.getLast? = some none :=
      getLast?_eq_of_all ((analyze df).SMA50) none hpos hs50
    rw [hs]; rfl
  rw [hrh, h50j]
  rfl

/-- Witness for C2's amended statement at the five-bar series `df5`. -/
theorem short_series_degrades_witness :
    (∀ o ∈ (analyze df5).SMA20, o = none) ∧
    (∀ o ∈ (analyze df5).SMA50, o = none) ∧
    (analyze df5).RSI14.length = df5.length ∧
    (analyze df5).ATR14.length = df5.length ∧
    (∀ o ∈ (analyze df5).ATR14, o.isSome) ∧
    suggest_trades (analyze df5) =
      some ⟨AggAction.noBreakout, ConsAction.noConservativeSetup,
        round2 ((analyze df5).RSI14.getLastD 0)⟩ :=
  short_series_degrades df5 (by simp [df5, range5_eq, mkBar])
    (by simp [df5, range5_eq])

/-- C2 (counterexample): on the 5-bar series `df5` the RSI14 and ATR14
columns are numeric at every position (RSI = 50 and ATR = 0 throughout),
refuting that every derived field is undefined at every position. -/
theorem short_series_rsi_atr_defined_df5 :
    (analyze df5).RSI14 = [50, 50, 50, 50, 50] ∧
    (analyze df5).ATR14 = [some 0, some 0, some 0, some 0, some 0] ∧
    (analyze df5).SMA20 = [none, none, none, none, none] := by
  refine ⟨?_, ?_, ?_⟩ <;>
    norm_num [df5, mkBar, range5_eq, analyze, sma, rsi, rsiRaw, rsCol,
      avgGain, avgLoss, avgLossR, gainCol, lossCol, diff, diffGo, ewm, ewmGo,
      atr, trCol, trGo, rollingMax, rollingMin, listMax, listMin, mean,
      windowAt, qmax, qmin, qabs, List.sum, List.foldl]

/-- Remaps every timestamp of a series through `g`, leaving prices alone. -/
def retime (g : ℤ → ℤ) (df : List Bar) : List Bar :=
  df.map (fun b => { b with ts := g b.ts })

theorem trGo_retime (g : ℤ → ℤ) (l : List Bar) :
    ∀ prev : Bar, trGo { prev with ts := g prev.ts } (retime g l) = trGo prev l := by
  induction l with
  | nil => intro prev; rfl
  | cons b t ih =>
    intro prev
    show qmax (b.high - b.low)
        (qmax (qabs (b.high - prev.close)) (qabs (b.low - prev.close))) ::
        trGo { b with ts := g b.ts } (retime g t) =
      qmax (b.high - b.low)
        (qmax (qabs (b.high - prev.close)) (qabs (b.low - prev.close))) ::
        trGo b t
    rw [ih b]

theorem trCol_retime (g : ℤ → ℤ) (df : List Bar) :
    trCol (retime g df) = trCol df := by
  cases df with
  | nil => rfl
  | cons b t =>
    show (b.high - b.low) :: trGo { b with ts := g b.ts } (retime g t) =
      (b.high - b.low) :: trGo b t
    rw [trGo_retime g t b]

theorem retime_closes (g : ℤ → ℤ) (df : List Bar) :
    (retime g df).map Bar.close = df.map Bar.close := by
  simp only [retime, List.map_map]
  rfl

/-- C10 (amended): the Indicator Engine performs no timestamp validation:
rewriting every timestamp through an arbitrary map — in particular into
non-increasing order — leaves every derived column unchanged, and the
computation never fails. -/
theorem analyze_ignores_timestamps (df : List Bar) (g : ℤ → ℤ) :
    (analyze (retime g df)).SMA20 = (analyze df).SMA20 ∧
    (analyze (retime g df)).SMA50 = (analyze df).SMA50 ∧
    (analyze (retime g df)).RSI14 = (analyze df).RSI14 ∧
    (analyze (retime g df)).ATR14 = (analyze df).ATR14 := by
  have hc := retime_closes g df
  refine ⟨?_, ?_, ?_, ?_⟩
  · rw [analyze_SMA20, analyze_SMA20, hc]
  · rw [analyze_SMA50, analyze_SMA50, hc]
  · rw [analyze_RSI14, analyze_RSI14, hc]
  · rw [analyze_ATR14, analyze_ATR14, atr, atr, trCol_retime]

/-- C10 (counterexample): on two bars with strictly decreasing timestamps
`analyze` silently computes numeric derived columns (RSI = 50 at both
positions, ATR defined) instead of failing on the malformed series. -/
theorem analyze_accepts_malformed_timestamps :
    ¬ List.Chain' (fun a b : ℤ => a < b) (dfBadTs.map Bar.ts) ∧
    (analyze dfBadTs).RSI14 = [50, 50] ∧
    (analyze dfBadTs).ATR14 = [some 0, some (1/14)] ∧
    (analyze dfBadTs).SMA20 = [none, none] := by
  refine ⟨by norm_num [dfBadTs, mkBar, List.chain'_cons, List.chain'_singleton], ?_, ?_, ?_⟩ <;>
    norm_num [dfBadTs, mkBar, range2_eq, analyze, sma, rsi, rsiRaw, rsCol, avgGain,
      avgLoss, avgLossR, gainCol, lossCol, diff, diffGo, ewm, ewmGo, atr,
      trCol, trGo, rollingMax, rollingMin, listMax, listMin, mean, windowAt,
      qmax, qmin, qabs, List.sum, List.foldl]

/-- C5 (amended): when trend_up holds and close < SMA50, the emitted plan
carries the two-decimal rounded values: entry = round2(sma50), stop_loss =
round2(sma50 − 2·ATR), targets = [round2(sma50 + 1·ATR),
round2(sma50 + 2·ATR)]; only the branch comparisons (SMA20 > SMA50,
close < SMA50) use the full-precision values. -/
theorem pullback_plan_rounds (df : List Bar) (f s c : ℚ)
    (hf : (analyze df).SMA20.getLast? = some (some f))
    (hs : (analyze df).SMA50.getLast? = some (some s))
    (hc : (df.map Bar.close).getLast? = some c)
    (htrend : s < f) (hpull : c < s) :
    (suggest_trades (analyze df)).map Suggestions.conservative =
      some (ConsAction.pullbackBuy (round2 s)
        (round2 (s - 2 * lastATR (analyze df)))
        [round2 (s + 1 * lastATR (analyze df)),
         round2 (s + 2 * lastATR (analyze df))]) := by
  rw [List.getLast?_map] at hc
  rcases Option.map_eq_some'.mp hc with ⟨last, hl, hcl⟩
  rw [suggest_trades_eq (analyze df) last (by rw [analyze_bars]; exact hl)]
  simp only [Option.map_some']
  subst hcl
  rw [hf, hs]
  have hj20 : ((some (some f) : Option (Option ℚ))).join = some f := rfl
  have hj50 : ((some (some s) : Option (Option ℚ))).join = some s := rfl
  rw [hj20, hj50]
  have htu : trendUp (some f) (some s) = true := by simp [trendUp, htrend]
  simp only [conservativeRule, if_pos (And.intro htu hpull)]

set_option maxHeartbeats 4000000 in
/-- C5 (counterexample): on `df50` the pullback branch fires with
SMA50 = 1867/75 ≈ 24.893, but the suggestion carries entry
24.89 = round2(1867/75), which differs from the full-precision SMA50. -/
theorem pullback_entry_rounded_df50 :
    (suggest_trades (analyze df50)).map (fun s => consEntry s.conservative) =
      some (some (2489/100)) ∧
    (analyze df50).SMA50.getLast? = some (some (1867/75)) ∧
    ((2489:ℚ)/100) ≠ 1867/75 := by
  refine ⟨?_, ?_, by norm_num⟩ <;>
    norm_num [df50, mkBar, range49_eq, range50_eq, suggest_trades, analyze,
      sma, rsi, rsiRaw, rsCol, avgGain, avgLoss, avgLossR, gainCol, lossCol,
      diff, diffGo, ewm, ewmGo, atr, trCol, trGo, rollingMax, rollingMin,
      listMax, listMin, mean, windowAt, qmax, qmin, qabs, round2,
      rndHalfEven, aggressiveRule, conservativeRule, trendUp, recentHigh,
      recentLow, lastATR, consEntry, List.getLast?, List.sum, List.foldl]

set_option maxHeartbeats 4000000 in
/-- Witness for C5's amended statement, instantiated at `df50` with
SMA20 = 2339/60, SMA50 = 1867/75 and close = 59/3. -/
theorem pullback_plan_rounds_witness :
    (suggest_trades (analyze df50)).map Suggestions.conservative =
      some (ConsAction.pullbackBuy (round2 (1867/75))
        (round2 (1867/75 - 2 * lastATR (analyze df50)))
        [round2 (1867/75 + 1 * lastATR (analyze df50)),
         round2 (1867/75 + 2 * lastATR (analyze df50))]) :=
  pullback_plan_rounds df50 (2339/60) (1867/75) (59/3)
    (by norm_num [df50, mkBar, range49_eq, range50_eq, analyze, sma, mean,
      windowAt, List.getLast?, List.sum])
    (by norm_num [df50, mkBar, range49_eq, range50_eq, analyze, sma, mean,
      windowAt, List.getLast?, List.sum])
    (by norm_num [df50, mkBar, range49_eq, List.getLast?])
    (by norm_num) (by norm_num)
